import Mathlib

/-!
Verification of the OverUnderRated game server (`src/server.js`).

The JavaScript source is shallowly embedded: JS objects used as string-keyed
maps (`gameState.votes`, `gameState.scores`, the `lobbies` and
`disconnectedPlayers` Maps) become association lists `List (String × α)`,
JS numbers that are used as integers become `Nat`/`Int`, and the
`setTimeout`/`setInterval` machinery becomes explicit continuation data so
that the timer-driven phase chain can be stated and proved about.
Randomness (`Math.random()`) is passed in explicitly: an arbitrary natural
`pick` stands for `Math.floor(Math.random() * n)` via `pick % n`, and the
fractional base-36 digit stream of a draw is passed to the lobby-code
generator directly.
-/

namespace OverUnderRated

/-- A lobby participant (`{ username, isHost, connected }` in `server.js`). -/
structure Participant where
  username : String
  isHost : Bool
  connected : Bool
deriving DecidableEq, Repr

/-- A lobby record as created by the `/api/lobby/create` route. -/
structure Lobby where
  code : String
  host : String
  participants : List Participant
  createdAt : Nat
  gameStarted : Bool
deriving DecidableEq, Repr

/-- The per-round vote tally `{ overrated, fairlyRated, underrated }`. -/
structure VoteResults where
  overrated : Nat
  fairlyRated : Nat
  underrated : Nat
deriving DecidableEq, Repr

/-- The per-lobby game session object created by the `start-game` handler.
The `timerInterval` handle is not a field here; it is modelled separately as
explicit continuation/pending-task data where a claim needs it. -/
structure GameState where
  phase : String
  roundNumber : Nat
  totalRounds : Nat
  currentImage : Option String
  votes : List (String × String)
  scores : List (String × Int)
  usedImages : List Nat
  timer : Nat
  voteResults : VoteResults
deriving DecidableEq, Repr

/-- Reading a JS object property: `m[k]`, `undefined` becoming `none`. -/
def getEntry {α : Type} : List (String × α) → String → Option α
  | [], _ => none
  | (k', v) :: rest, k => if k' = k then some v else getEntry rest k

/-- Writing a JS object property / `Map.set`: `m[k] = v` overwrites an
existing binding and otherwise appends a new one. -/
def setEntry {α : Type} : List (String × α) → String → α → List (String × α)
  | [], k, v => [(k, v)]
  | (k', v') :: rest, k, v =>
      if k' = k then (k, v) :: rest else (k', v') :: setEntry rest k v

/-- `scores[u] += 1` (line 461).  In every reachable state the participant
`u` already has a score entry (scores are initialized on `start-game`,
`restart-game` and on joining an active game), so only existing entries are
updated; a missing key would produce `NaN` in JS, which is outside the
integer model and excluded by hypothesis where it matters. -/
def incEntry (m : List (String × Int)) (k : String) : List (String × Int) :=
  m.map (fun e => if e.1 = k then (e.1, e.2 + 1) else e)

/-- One step of the vote-counting loop of `calculateResults`
(lines 428-439): a vote is counted only if the participant is currently
connected, and only the three recognized category strings are counted. -/
def countVoteStep (votes : List (String × String)) (vr : VoteResults)
    (p : Participant) : VoteResults :=
  if p.connected then
    let vote := getEntry votes p.username
    if vote = some "overrated" then { vr with overrated := vr.overrated + 1 }
    else if vote = some "fairlyRated" then { vr with fairlyRated := vr.fairlyRated + 1 }
    else if vote = some "underrated" then { vr with underrated := vr.underrated + 1 }
    else vr
  else vr

/-- The vote-counting loop of `calculateResults` (lines 426-439). -/
def countVotes (ps : List Participant) (votes : List (String × String)) :
    VoteResults :=
  ps.foldl (countVoteStep votes) ⟨0, 0, 0⟩

/-- One step of the `Object.entries(voteResults).forEach` loop that
determines the majority (lines 447-455): a strictly larger count takes the
lead, a nonzero tie with the current maximum clears the majority. -/
def majorityStep (acc : Option String × Nat) (e : String × Nat) :
    Option String × Nat :=
  if acc.2 < e.2 then (some e.1, e.2)
  else if e.2 = acc.2 ∧ 0 < e.2 then (none, acc.2)
  else acc

/-- Majority determination of `calculateResults` (lines 443-455); the fold
order is the insertion order of the `voteResults` object literal. -/
def majorityOption (vr : VoteResults) : Option String :=
  (List.foldl majorityStep ((none : Option String), 0)
    [("overrated", vr.overrated), ("fairlyRated", vr.fairlyRated),
     ("underrated", vr.underrated)]).1

/-- The connected-voter test used to state what `countVotes` computes. -/
def votedConnected (votes : List (String × String)) (c : String)
    (p : Participant) : Bool :=
  p.connected && (getEntry votes p.username == some c)

lemma countVotes_foldl (votes : List (String × String)) :
    ∀ (ps : List Participant) (vr : VoteResults),
      (List.foldl (countVoteStep votes) vr ps).overrated
          = vr.overrated + (ps.filter (votedConnected votes "overrated")).length
        ∧ (List.foldl (countVoteStep votes) vr ps).fairlyRated
          = vr.fairlyRated + (ps.filter (votedConnected votes "fairlyRated")).length
        ∧ (List.foldl (countVoteStep votes) vr ps).underrated
          = vr.underrated + (ps.filter (votedConnected votes "underrated")).length := by
  intro ps
  induction ps with
  | nil => intro vr; simp
  | cons p t ih =>
    intro vr
    rw [List.foldl_cons]
    by_cases hc : p.connected = true
    · by_cases h1 : getEntry votes p.username = some "overrated"
      · obtain ⟨t1, t2, t3⟩ := ih { vr with overrated := vr.overrated + 1 }
        rw [show countVoteStep votes vr p = { vr with overrated := vr.overrated + 1 }
              from by simp [countVoteStep, hc, h1]]
        refine ⟨?_, ?_, ?_⟩ <;>
          · simp only [t1, t2, t3, List.filter_cons, votedConnected, hc, h1]
            simp
            try omega
      · by_cases h2 : getEntry votes p.username = some "fairlyRated"
        · obtain ⟨t1, t2, t3⟩ := ih { vr with fairlyRated := vr.fairlyRated + 1 }
          rw [show countVoteStep votes vr p = { vr with fairlyRated := vr.fairlyRated + 1 }
                from by simp [countVoteStep, hc, h1, h2]]
          refine ⟨?_, ?_, ?_⟩ <;>
            · simp only [t1, t2, t3, List.filter_cons, votedConnected, hc, h2]
              simp [h1, h2]
              try omega
        · by_cases h3 : getEntry votes p.username = some "underrated"
          · obtain ⟨t1, t2, t3⟩ := ih { vr with underrated := vr.underrated + 1 }
            rw [show countVoteStep votes vr p = { vr with underrated := vr.underrated + 1 }
                  from by simp [countVoteStep, hc, h1, h2, h3]]
            refine ⟨?_, ?_, ?_⟩ <;>
              · simp only [t1, t2, t3, List.filter_cons, votedConnected, hc, h3]
                simp [h1, h2, h3]
                try omega
          · obtain ⟨t1, t2, t3⟩ := ih vr
            rw [show countVoteStep votes vr p = vr
                  from by simp [countVoteStep, hc, h1, h2, h3]]
            refine ⟨?_, ?_, ?_⟩ <;>
              · simp only [t1, t2, t3, List.filter_cons, votedConnected, hc]
                simp [h1, h2, h3]
    · obtain ⟨t1, t2, t3⟩ := ih vr
      rw [show countVoteStep votes vr p = vr
            from by simp [countVoteStep, hc]]
      have hcf : p.connected = false := by
        revert hc; cases p.connected <;> simp
      refine ⟨?_, ?_, ?_⟩ <;>
        · simp only [t1, t2, t3, List.filter_cons, votedConnected, hcf]
          simp

lemma majorityOption_eq (o f u : Nat) :
    majorityOption ⟨o, f, u⟩
      = (if f < o ∧ u < o then some "overrated"
         else if o < f ∧ u < f then some "fairlyRated"
         else if o < u ∧ f < u then some "underrated"
         else none) := by
  simp only [majorityOption, majorityStep, List.foldl]
  split_ifs <;> first | rfl | omega

/-- C1: when the voting timer expires, the per-category counts computed by
`calculateResults` are exactly the counts of recorded votes restricted to
currently-connected participants (so a disconnected participant's stored
vote is counted in no category), and the majority is the category with the
strictly highest count, `none` whenever no category's count strictly exceeds
both others (in particular on any tie for the highest nonzero count). -/
theorem calculateResults_tally_and_majority
    (ps : List Participant) (votes : List (String × String)) :
    (countVotes ps votes).overrated
        = (ps.filter (votedConnected votes "overrated")).length
      ∧ (countVotes ps votes).fairlyRated
        = (ps.filter (votedConnected votes "fairlyRated")).length
      ∧ (countVotes ps votes).underrated
        = (ps.filter (votedConnected votes "underrated")).length
      ∧ majorityOption (countVotes ps votes)
        = (if (countVotes ps votes).fairlyRated < (countVotes ps votes).overrated
              ∧ (countVotes ps votes).underrated < (countVotes ps votes).overrated
           then some "overrated"
           else if (countVotes ps votes).overrated < (countVotes ps votes).fairlyRated
              ∧ (countVotes ps votes).underrated < (countVotes ps votes).fairlyRated
           then some "fairlyRated"
           else if (countVotes ps votes).overrated < (countVotes ps votes).underrated
              ∧ (countVotes ps votes).fairlyRated < (countVotes ps votes).underrated
           then some "underrated"
           else none) := by
  obtain ⟨h1, h2, h3⟩ := countVotes_foldl votes ps ⟨0, 0, 0⟩
  refine ⟨by simpa using h1, by simpa using h2, by simpa using h3, ?_⟩
  obtain ⟨o, f, u⟩ := countVotes ps votes
  exact majorityOption_eq o f u

lemma getEntry_cons {α : Type} (k' : String) (v : α) (rest : List (String × α))
    (k : String) :
    getEntry ((k', v) :: rest) k = if k' = k then some v else getEntry rest k :=
  rfl

lemma setEntry_cons {α : Type} (k' : String) (v' : α) (rest : List (String × α))
    (k : String) (v : α) :
    setEntry ((k', v') :: rest) k v
      = if k' = k then (k, v) :: rest else (k', v') :: setEntry rest k v :=
  rfl

lemma incEntry_cons (k' : String) (v' : Int) (rest : List (String × Int))
    (k : String) :
    incEntry ((k', v') :: rest) k
      = (if k' = k then (k', v' + 1) else (k', v')) :: incEntry rest k := by
  by_cases h : k' = k <;> simp [incEntry, h]

lemma getEntry_setEntry_self {α : Type} (m : List (String × α)) (k : String)
    (v : α) : getEntry (setEntry m k v) k = some v := by
  induction m with
  | nil => simp [setEntry, getEntry]
  | cons e rest ih =>
    obtain ⟨k', v'⟩ := e
    by_cases h : k' = k
    · rw [setEntry_cons, if_pos h, getEntry_cons, if_pos rfl]
    · rw [setEntry_cons, if_neg h, getEntry_cons, if_neg h, ih]

lemma getEntry_setEntry_ne {α : Type} (m : List (String × α)) (k u : String)
    (v : α) (h : u ≠ k) : getEntry (setEntry m k v) u = getEntry m u := by
  induction m with
  | nil => simp [setEntry, getEntry, Ne.symm h]
  | cons e rest ih =>
    obtain ⟨k', v'⟩ := e
    by_cases he : k' = k
    · rw [setEntry_cons, if_pos he, getEntry_cons, if_neg (Ne.symm h),
        getEntry_cons, if_neg (he ▸ fun hh => h hh.symm)]
    · rw [setEntry_cons, if_neg he, getEntry_cons, getEntry_cons, ih]

lemma getEntry_incEntry_self (m : List (String × Int)) (k : String) :
    getEntry (incEntry m k) k = (getEntry m k).map (· + 1) := by
  induction m with
  | nil => simp [incEntry, getEntry]
  | cons e rest ih =>
    obtain ⟨k', v'⟩ := e
    by_cases h : k' = k
    · rw [incEntry_cons, if_pos h, getEntry_cons, if_pos h, getEntry_cons,
        if_pos h]
      rfl
    · rw [incEntry_cons, if_neg h, getEntry_cons, if_neg h, getEntry_cons,
        if_neg h, ih]

lemma getEntry_incEntry_ne (m : List (String × Int)) (k u : String)
    (h : u ≠ k) : getEntry (incEntry m k) u = getEntry m u := by
  induction m with
  | nil => simp [incEntry, getEntry]
  | cons e rest ih =>
    obtain ⟨k', v'⟩ := e
    by_cases hk : k' = k
    · rw [incEntry_cons, if_pos hk, getEntry_cons, getEntry_cons, ih]
      have : ¬ k' = u := hk ▸ fun hh => h hh.symm
      rw [if_neg this, if_neg this]
    · rw [incEntry_cons, if_neg hk, getEntry_cons, getEntry_cons, ih]

/-- The score-award loop of `calculateResults` (lines 457-464): if a
majority exists, every participant whose recorded vote equals the majority
category gets `scores[p.username] += 1`; with no majority nothing happens. -/
def applyScoring (ps : List Participant) (votes : List (String × String))
    (maj : Option String) (scores : List (String × Int)) :
    List (String × Int) :=
  match maj with
  | none => scores
  | some m =>
      ps.foldl
        (fun sc p => if getEntry votes p.username = some m then incEntry sc p.username else sc)
        scores

lemma applyScoring_foldl_no_inc (votes : List (String × String)) (m : String)
    (u : String) :
    ∀ (ps : List Participant) (sc : List (String × Int)),
      (∀ p ∈ ps, p.username = u → getEntry votes p.username ≠ some m) →
      getEntry
        (ps.foldl
          (fun sc p => if getEntry votes p.username = some m then incEntry sc p.username else sc)
          sc) u = getEntry sc u := by
  intro ps
  induction ps with
  | nil => intro sc _; rfl
  | cons p t ih =>
    intro sc hns
    rw [List.foldl_cons]
    have ht : ∀ q ∈ t, q.username = u → getEntry votes q.username ≠ some m :=
      fun q hq => hns q (by simp [hq])
    by_cases hv : getEntry votes p.username = some m
    · have hpu : p.username ≠ u := fun he => hns p (by simp) he hv
      rw [if_pos hv, ih _ ht, getEntry_incEntry_ne _ _ _ (fun hh => hpu hh.symm)]
    · rw [if_neg hv, ih _ ht]

/-- C2: after a round's tally, if a majority category exists then every
participant whose recorded vote equals it (connected or not) has their
cumulative score incremented by exactly 1, every other score entry (other
participants and stale non-participant entries alike) is unchanged, and if
no majority exists no score changes at all.  Usernames are unique within a
lobby and every participant has a score entry in any reachable state. -/
theorem calculateResults_scoring
    (ps : List Participant) (votes : List (String × String)) (m : String)
    (scores : List (String × Int)) (u : String)
    (hnd : (ps.map Participant.username).Nodup)
    (hex : ∀ p ∈ ps, (getEntry scores p.username).isSome) :
    applyScoring ps votes none scores = scores
      ∧ ((∃ p ∈ ps, p.username = u ∧ getEntry votes p.username = some m) →
          ∃ v : Int, getEntry scores u = some v
            ∧ getEntry (applyScoring ps votes (some m) scores) u = some (v + 1))
      ∧ ((¬ ∃ p ∈ ps, p.username = u ∧ getEntry votes p.username = some m) →
          getEntry (applyScoring ps votes (some m) scores) u = getEntry scores u) := by
  refine ⟨rfl, ?_, ?_⟩
  · rintro ⟨p, hp, rfl, hv⟩
    obtain ⟨v, hv0⟩ := Option.isSome_iff_exists.1 (hex p hp)
    refine ⟨v, hv0, ?_⟩
    clear hex
    induction ps generalizing scores with
    | nil => cases hp
    | cons q t ih =>
      rw [List.map_cons, List.nodup_cons] at hnd
      simp only [applyScoring, List.foldl_cons]
      rcases List.mem_cons.1 hp with hq | hpt
      · subst hq
        rw [if_pos hv]
        have hqnot : ∀ r ∈ t, r.username = p.username →
            getEntry votes r.username ≠ some m := by
          intro r hr he _
          exact hnd.1 (he ▸ List.mem_map_of_mem Participant.username hr)
        rw [applyScoring_foldl_no_inc votes m p.username t _ hqnot,
          getEntry_incEntry_self, hv0]
        rfl
      · have hqp : q.username ≠ p.username := by
          intro he
          exact hnd.1 (he ▸ List.mem_map_of_mem Participant.username hpt)
        by_cases hqv : getEntry votes q.username = some m
        · rw [if_pos hqv]
          have hv0i : getEntry (incEntry scores q.username) p.username = some v := by
            rw [getEntry_incEntry_ne _ _ _ (fun hh => hqp hh.symm)]
            exact hv0
          simpa [applyScoring] using ih _ hnd.2 hpt hv0i
        · rw [if_neg hqv]
          simpa [applyScoring] using ih _ hnd.2 hpt hv0
  · intro hno
    simp only [applyScoring]
    apply applyScoring_foldl_no_inc
    intro p hp he hv
    exact hno ⟨p, hp, he, hv⟩

/-- JS truthiness of `gameState.votes[username]` as tested by
`!gameState.votes[username]` in the `cast-vote` handler (line 254):
`undefined` (no entry) and the empty string are falsy, every other string
is truthy. -/
def jsTruthyStr : Option String → Bool
  | none => false
  | some s => !(s == "")

/-- The `cast-vote` handler (lines 250-264): the vote is stored only while
the phase is `voting` and the JS-falsy test `!gameState.votes[username]`
passes; otherwise the state is left unchanged (silently).  The remainder of
the handler only logs. -/
def castVote (gs : GameState) (username vote : String) : GameState :=
  if gs.phase = "voting" ∧ jsTruthyStr (getEntry gs.votes username) = false then
    { gs with votes := setEntry gs.votes username vote }
  else gs

/-- A game state in the voting phase in which alice has already cast a
(stored) empty-string vote. -/
def gsEmptyVote : GameState :=
  { phase := "voting", roundNumber := 1, totalRounds := 30,
    currentImage := some "/images/a.png",
    votes := [("alice", "")],
    scores := [("alice", 0), ("bob", 0)],
    usedImages := [0], timer := 12, voteResults := ⟨0, 0, 0⟩ }

/-- C5 counterexample: votes are not validated at intake, so alice can cast
the empty string as her vote; it is recorded (`votes['alice'] = ""`), yet a
second cast-vote in the same round with a different value replaces it,
because the once-per-round guard is the JS-falsy test
`!gameState.votes[username]` and the empty string is falsy.  This refutes
the claim that any subsequent cast-vote after a recorded vote leaves the
stored vote unchanged. -/
theorem castVote_empty_string_revote :
    getEntry gsEmptyVote.votes "alice" = some ""
      ∧ getEntry (castVote gsEmptyVote "alice" "overrated").votes "alice"
          = some "overrated"
      ∧ castVote gsEmptyVote "alice" "overrated" ≠ gsEmptyVote := by
  refine ⟨rfl, rfl, ?_⟩
  decide

/-- C5 (amended): a vote is recorded only while the phase is `voting`, and
once a username has a recorded *truthy* (non-empty-string) vote for the
current round, any subsequent cast-vote for that username in the round is
silently ignored; a recorded empty-string vote, being JS-falsy, does not
block re-voting.  A first vote in the voting phase is stored as given. -/
theorem castVote_once_per_round
    (gs : GameState) (u w : String) :
    (gs.phase ≠ "voting" → castVote gs u w = gs)
      ∧ (∀ v, getEntry gs.votes u = some v → v ≠ "" → castVote gs u w = gs)
      ∧ (gs.phase = "voting" → getEntry gs.votes u = none →
          getEntry (castVote gs u w).votes u = some w
            ∧ (castVote gs u w).phase = gs.phase
            ∧ (castVote gs u w).scores = gs.scores) := by
  refine ⟨?_, ?_, ?_⟩
  · intro hp
    rw [castVote, if_neg (fun hh => hp hh.1)]
  · intro v hv hne
    have ht : jsTruthyStr (getEntry gs.votes u) = true := by
      rw [hv]
      simpa [jsTruthyStr] using hne
    rw [castVote, if_neg (fun hh => by rw [ht] at hh; exact absurd hh.2 (by simp))]
  · intro hp hv
    have hf : jsTruthyStr (getEntry gs.votes u) = false := by
      rw [hv]; rfl
    rw [castVote, if_pos ⟨hp, hf⟩]
    exact ⟨getEntry_setEntry_self gs.votes u w, rfl, rfl⟩

/-- Witness for `castVote_once_per_round`: with a recorded vote
`"overrated"`, a second cast is silently ignored. -/
theorem castVote_once_per_round_witness :
    castVote
        { gsEmptyVote with votes := [("alice", "overrated")] }
        "alice" "underrated"
      = { gsEmptyVote with votes := [("alice", "overrated")] } :=
  (castVote_once_per_round
      { gsEmptyVote with votes := [("alice", "overrated")] }
      "alice" "underrated").2.1 "overrated" rfl (by decide)

/-- The `gameState` object literal built by the `start-game` handler
(lines 222-239), scores initialized to 0 for every current participant. -/
def initGameState (ps : List Participant) : GameState :=
  { phase := "discussion", roundNumber := 1, totalRounds := 30,
    currentImage := none, votes := [],
    scores := ps.foldl (fun sc p => setEntry sc p.username 0) [],
    usedImages := [], timer := 60, voteResults := ⟨0, 0, 0⟩ }

/-- Result of a `start-game` request: the lobby afterwards, the created
session (if any), and the targeted error event sent to the requester
(if any). -/
structure StartResult where
  lobbyAfter : Option Lobby
  newGame : Option GameState
  errorEvent : Option String
deriving DecidableEq, Repr

/-- The `start-game` handler (lines 210-248): requires the lobby to exist,
the requester to be the host and at least 2 participants, silently ignoring
the request otherwise; with an empty image catalog it sends a targeted
error event and returns before setting `gameStarted`; otherwise it marks
the lobby started and installs a fresh session. -/
def startGameHandler (lobby? : Option Lobby) (username : String)
    (numImages : Nat) : StartResult :=
  match lobby? with
  | none => ⟨none, none, none⟩
  | some lobby =>
      if lobby.host = username ∧ 2 ≤ lobby.participants.length then
        if numImages = 0 then
          ⟨some lobby, none,
            some "No images available. Please add images to the images/ folder"⟩
        else
          ⟨some { lobby with gameStarted := true },
            some (initGameState lobby.participants), none⟩
      else ⟨some lobby, none, none⟩

/-- C7: a start-game request creates a session exactly when the requester
is the host, the lobby has at least 2 participants and the image catalog is
non-empty; the targeted error event is sent exactly in the empty-catalog
case (host with enough participants); and in every non-creating case the
lobby is left exactly as it was (in particular unstarted), so non-host and
insufficient-participant requests are silently ignored. -/
theorem startGame_preconditions (lobby : Lobby) (username : String)
    (numImages : Nat) :
    ((startGameHandler (some lobby) username numImages).newGame.isSome
        ↔ (lobby.host = username ∧ 2 ≤ lobby.participants.length ∧ numImages ≠ 0))
      ∧ ((startGameHandler (some lobby) username numImages).errorEvent.isSome
        ↔ (lobby.host = username ∧ 2 ≤ lobby.participants.length ∧ numImages = 0))
      ∧ ((startGameHandler (some lobby) username numImages).newGame = none →
          (startGameHandler (some lobby) username numImages).lobbyAfter = some lobby)
      ∧ (startGameHandler none username numImages).newGame = none := by
  by_cases h1 : lobby.host = username ∧ 2 ≤ lobby.participants.length
  · by_cases h2 : numImages = 0
    · simp [startGameHandler, h1, h2]
    · simp [startGameHandler, h1, h2]
  · have h1a : ¬ (lobby.host = username ∧ 2 ≤ lobby.participants.length ∧ numImages ≠ 0) := by
      intro hh; exact h1 ⟨hh.1, hh.2.1⟩
    have h1b : ¬ (lobby.host = username ∧ 2 ≤ lobby.participants.length ∧ numImages = 0) := by
      intro hh; exact h1 ⟨hh.1, hh.2.1⟩
    simp [startGameHandler, h1, h1a, h1b]

/-- A two-player lobby whose host is alice, used as concrete input. -/
def lobbyAB : Lobby :=
  { code := "ABC123", host := "alice",
    participants := [⟨"alice", true, true⟩, ⟨"bob", false, true⟩],
    createdAt := 0, gameStarted := false }

/-- Witness for `startGame_preconditions`: a non-host request leaves the
lobby untouched (silent rejection). -/
theorem startGame_preconditions_witness :
    (startGameHandler (some lobbyAB) "bob" 5).lobbyAfter = some lobbyAB :=
  (startGame_preconditions lobbyAB "bob" 5).2.2.1 (by decide)

/-- The images still selectable for a round:
`gameImages.filter((image, index) => !usedImages.includes(index))`
(lines 370-372). -/
def availableImages (catalog : List String) (used : List Nat) : List String :=
  (catalog.enum.filter (fun e => !(used.contains e.1))).map Prod.snd

/-- The single continuation a restart-free session has scheduled at any
moment.  Within one session the code runs a strictly sequential chain:
the 2s/3s `setTimeout` into `startDiscussionPhase`, the discussion
interval, the voting interval, `calculateResults`'s 5s `setTimeout` into
`showScoreboard`, `showScoreboard`'s 5s `setTimeout` that advances the
round, and then either the next round's 3s `setTimeout` or nothing at all
after `endGame`. -/
inductive Cont
  | toDiscussion
  | discussionTimer
  | votingTimer
  | toScoreboard
  | toAdvance
  | halted
deriving DecidableEq, Repr

/-- A session together with its scheduled continuation. -/
structure MachineState where
  gs : GameState
  cont : Cont
deriving DecidableEq, Repr

/-- `endGame` (lines 506-518): clears the interval and broadcasts
`game-ended` with `finalScores = gameState.scores`; it writes no field of
the game state — in particular the phase is NOT set to `"ended"` (no such
phase exists anywhere in the code), so the phase keeps its last value. -/
def endGameState (gs : GameState) : GameState := gs

/-- `startDiscussionPhase` (lines 363-402): if no unused image remains or
the round number exceeds the total, call `endGame`; otherwise draw a
uniformly random unused image (`pick % n` standing for
`Math.floor(Math.random() * n)`), look up its catalog index with `indexOf`,
record it as used, reset the votes and start the 60s discussion timer. -/
def startDiscussionPhase (catalog : List String) (gs : GameState)
    (pick : Nat) : MachineState :=
  let available := availableImages catalog gs.usedImages
  if available.length = 0 ∨ gs.totalRounds < gs.roundNumber then
    ⟨endGameState gs, Cont.halted⟩
  else
    let randomIndex := pick % available.length
    let selectedImage := available.getD randomIndex ""
    let originalIndex := catalog.indexOf selectedImage
    ⟨{ gs with currentImage := some selectedImage,
               usedImages := gs.usedImages ++ [originalIndex],
               phase := "discussion", votes := [], timer := 60 },
      Cont.discussionTimer⟩

/-- The state mutation of `calculateResults` (lines 419-473): store the
tally, award scores if a majority exists, and enter the results phase. -/
def calculateResultsState (lobby : Lobby) (gs : GameState) : GameState :=
  let vr := countVotes lobby.participants gs.votes
  { gs with voteResults := vr,
            scores := applyScoring lobby.participants gs.votes
                        (majorityOption vr) gs.scores,
            phase := "results" }

/-- One transition of the restart-free session chain: each case is the
body of the timer/timeout callback that fires next (`startDiscussionPhase`,
`startVotingPhase`, `calculateResults`, `showScoreboard`'s two halves). -/
def stepM (catalog : List String) (lobby : Lobby) (s : MachineState)
    (pick : Nat) : MachineState :=
  match s.cont with
  | Cont.toDiscussion => startDiscussionPhase catalog s.gs pick
  | Cont.discussionTimer =>
      -- startVotingPhase (lines 404-417)
      ⟨{ s.gs with phase := "voting", timer := 30 }, Cont.votingTimer⟩
  | Cont.votingTimer =>
      ⟨calculateResultsState lobby s.gs, Cont.toScoreboard⟩
  | Cont.toScoreboard =>
      -- showScoreboard, first half (lines 480-488)
      ⟨{ s.gs with phase := "scoreboard" }, Cont.toAdvance⟩
  | Cont.toAdvance =>
      -- showScoreboard's inner 5s setTimeout (lines 490-503):
      -- increment roundNumber, then end the game when it exceeds
      -- totalRounds or all catalog images are used, else enter waiting
      if s.gs.totalRounds < s.gs.roundNumber + 1
          ∨ catalog.length ≤ s.gs.usedImages.length then
        ⟨endGameState { s.gs with roundNumber := s.gs.roundNumber + 1 },
          Cont.halted⟩
      else
        ⟨{ s.gs with roundNumber := s.gs.roundNumber + 1, phase := "waiting" },
          Cont.toDiscussion⟩
  | Cont.halted => s

/-- A run of the session chain; one `pick` of randomness is consumed per
transition (unused by most transitions). -/
def runM (catalog : List String) (lobby : Lobby) (s : MachineState) :
    List Nat → MachineState
  | [] => s
  | p :: ps => runM catalog lobby (stepM catalog lobby s p) ps

/-- The session invariant behind C4: the round number never exceeds
`totalRounds` while a continuation is still scheduled, and never exceeds
`totalRounds + 1` at all. -/
def SessionInv (s : MachineState) : Prop :=
  s.gs.roundNumber ≤ s.gs.totalRounds + 1
    ∧ (s.cont ≠ Cont.halted → s.gs.roundNumber ≤ s.gs.totalRounds)

lemma stepM_roundNumber_mono (catalog : List String) (lobby : Lobby)
    (s : MachineState) (pick : Nat) :
    s.gs.roundNumber ≤ (stepM catalog lobby s pick).gs.roundNumber := by
  obtain ⟨gs, c⟩ := s
  cases c <;>
    simp only [stepM, startDiscussionPhase, calculateResultsState] <;>
    first
      | rfl
      | (split <;> simp [endGameState])

lemma stepM_totalRounds_eq (catalog : List String) (lobby : Lobby)
    (s : MachineState) (pick : Nat) :
    (stepM catalog lobby s pick).gs.totalRounds = s.gs.totalRounds := by
  obtain ⟨gs, c⟩ := s
  cases c <;>
    simp only [stepM, startDiscussionPhase, calculateResultsState] <;>
    first
      | rfl
      | (split <;> simp [endGameState])

lemma stepM_inv (catalog : List String) (lobby : Lobby) (s : MachineState)
    (pick : Nat) (h : SessionInv s) :
    SessionInv (stepM catalog lobby s pick) := by
  obtain ⟨gs, c⟩ := s
  obtain ⟨h1, h2⟩ := h
  cases c with
  | toDiscussion =>
      simp only [stepM, startDiscussionPhase]
      split
      · exact ⟨h1, by simp [endGameState]⟩
      · next hcond =>
          refine ⟨by simpa using h1, fun _ => ?_⟩
          simp only [not_or, Nat.not_lt] at hcond
          simpa using hcond.2
  | discussionTimer =>
      exact ⟨h1, fun _ => h2 (by simp)⟩
  | votingTimer =>
      exact ⟨h1, fun _ => h2 (by simp)⟩
  | toScoreboard =>
      exact ⟨h1, fun _ => h2 (by simp)⟩
  | toAdvance =>
      have hle := h2 (by simp)
      simp only [stepM, endGameState]
      split
      · refine ⟨?_, by simp⟩
        simp only [SessionInv] at hle ⊢
        simp
        omega
      · next hcond =>
          simp only [not_or, Nat.not_lt] at hcond
          refine ⟨?_, fun _ => ?_⟩ <;> simp <;> omega
  | halted =>
      exact ⟨h1, h2⟩

/-- C4 (amended): within one session (one restart-free timeline, restart
and start beginning a new session), the round number is non-decreasing; it
never exceeds the total number of rounds while the session still has a
scheduled continuation, and never exceeds `totalRounds + 1` at all.  The
claim's guard "while the phase is not the terminal ended phase" cannot
hold as stated because the code never assigns an `"ended"` phase: after
the final round `roundNumber = totalRounds + 1` with the phase left at
`"scoreboard"` (see the counterexample). -/
theorem roundNumber_monotone_and_bounded (catalog : List String)
    (lobby : Lobby) (s : MachineState) (picks : List Nat)
    (h : SessionInv s) :
    s.gs.roundNumber ≤ (runM catalog lobby s picks).gs.roundNumber
      ∧ (runM catalog lobby s picks).gs.roundNumber
          ≤ (runM catalog lobby s picks).gs.totalRounds + 1
      ∧ ((runM catalog lobby s picks).cont ≠ Cont.halted →
          (runM catalog lobby s picks).gs.roundNumber
            ≤ (runM catalog lobby s picks).gs.totalRounds) := by
  induction picks generalizing s with
  | nil => exact ⟨Nat.le_refl _, h.1, h.2⟩
  | cons p ps ih =>
      obtain ⟨m1, m2, m3⟩ := ih (stepM catalog lobby s p) (stepM_inv catalog lobby s p h)
      exact ⟨Nat.le_trans (stepM_roundNumber_mono catalog lobby s p) m1, m2, m3⟩

/-- Witness for `roundNumber_monotone_and_bounded` at the freshly started
two-player session, running three transitions. -/
theorem roundNumber_monotone_and_bounded_witness :
    1 ≤ (runM ["/images/a.png", "/images/b.png"] lobbyAB
          ⟨initGameState lobbyAB.participants, Cont.toDiscussion⟩
          [0, 0, 0]).gs.roundNumber
      ∧ (runM ["/images/a.png", "/images/b.png"] lobbyAB
          ⟨initGameState lobbyAB.participants, Cont.toDiscussion⟩
          [0, 0, 0]).gs.roundNumber
          ≤ (runM ["/images/a.png", "/images/b.png"] lobbyAB
              ⟨initGameState lobbyAB.participants, Cont.toDiscussion⟩
              [0, 0, 0]).gs.totalRounds + 1
      ∧ ((runM ["/images/a.png", "/images/b.png"] lobbyAB
            ⟨initGameState lobbyAB.participants, Cont.toDiscussion⟩
            [0, 0, 0]).cont ≠ Cont.halted →
          (runM ["/images/a.png", "/images/b.png"] lobbyAB
            ⟨initGameState lobbyAB.participants, Cont.toDiscussion⟩
            [0, 0, 0]).gs.roundNumber
            ≤ (runM ["/images/a.png", "/images/b.png"] lobbyAB
                ⟨initGameState lobbyAB.participants, Cont.toDiscussion⟩
                [0, 0, 0]).gs.totalRounds) :=
  roundNumber_monotone_and_bounded ["/images/a.png", "/images/b.png"] lobbyAB
    ⟨initGameState lobbyAB.participants, Cont.toDiscussion⟩ [0, 0, 0]
    ⟨by decide, by decide⟩

/-- A 30-image catalog (distinct paths, as produced by the directory
loader: one entry per file name). -/
def catalogC4 : List String :=
  (List.range 30).map (fun i => "/images/" ++ toString i ++ ".png")

/-- The final state of a complete 30-round session of the two-player lobby
in which nobody votes and the random draw always picks the first available
image: every round takes exactly five transitions, so 150 transitions run
the session to completion. -/
def finalC4 : MachineState :=
  runM catalogC4 lobbyAB ⟨initGameState lobbyAB.participants, Cont.toDiscussion⟩
    (List.replicate 150 0)

set_option maxRecDepth 100000 in
/-- C4 counterexample: running a session to completion from `start-game`
leaves `roundNumber = 31 > totalRounds = 30` while the phase is
`"scoreboard"`, not a terminal `"ended"` phase — `endGame` never assigns
one — so the claimed bound "round number never exceeds total rounds while
the phase is not ended" fails in every completed session. -/
theorem round_exceeds_totalRounds_without_ended_phase :
    finalC4.gs.roundNumber = 31
      ∧ finalC4.gs.totalRounds = 30
      ∧ finalC4.gs.phase = "scoreboard"
      ∧ finalC4.gs.phase ≠ "ended"
      ∧ finalC4.cont = Cont.halted := by
  refine ⟨by decide, by decide, by decide, by decide, by decide⟩

/-- The catalog index selected by a transition, if the transition is a
round setup that selects one: `originalIndex = gameImages.indexOf(selectedImage)`
(lines 379-381). -/
def stepSelection (catalog : List String) (s : MachineState) (pick : Nat) :
    Option Nat :=
  match s.cont with
  | Cont.toDiscussion =>
      if (availableImages catalog s.gs.usedImages).length = 0
          ∨ s.gs.totalRounds < s.gs.roundNumber then none
      else
        some (catalog.indexOf
          ((availableImages catalog s.gs.usedImages).getD
            (pick % (availableImages catalog s.gs.usedImages).length) ""))
  | _ => none

/-- All catalog indices selected along a run of the session chain. -/
def runSelections (catalog : List String) (lobby : Lobby)
    (s : MachineState) : List Nat → List Nat
  | [] => []
  | p :: ps =>
      (stepSelection catalog s p).toList
        ++ runSelections catalog lobby (stepM catalog lobby s p) ps

lemma mem_availableImages (catalog : List String) (used : List Nat)
    (img : String) (h : img ∈ availableImages catalog used) :
    ∃ i, i < catalog.length ∧ catalog[i]? = some img ∧ i ∉ used := by
  simp only [availableImages, List.mem_map] at h
  obtain ⟨⟨i, a⟩, hmem, rfl⟩ := h
  rw [List.mem_filter] at hmem
  obtain ⟨henum, hused⟩ := hmem
  have hget := List.mk_mem_enum_iff_getElem?.1 henum
  refine ⟨i, (List.getElem?_eq_some.1 hget).1, hget, ?_⟩
  simpa using hused

lemma indexOf_of_getElem? (catalog : List String) (i : Nat) (img : String)
    (hnd : catalog.Nodup) (hget : catalog[i]? = some img) :
    catalog.indexOf img = i := by
  obtain ⟨hi, he⟩ := List.getElem?_eq_some.1 hget
  have hmem : img ∈ catalog := he ▸ List.getElem_mem hi
  have hlt : catalog.indexOf img < catalog.length :=
    List.indexOf_lt_length.2 hmem
  have h1 : catalog.get ⟨catalog.indexOf img, hlt⟩ = img := List.indexOf_get hlt
  have h2 : catalog.get ⟨i, hi⟩ = img := by simpa using he
  exact congrArg Fin.val ((hnd.get_inj_iff).1 (h1.trans h2.symm))

/-- With a duplicate-free catalog (the loader produces one path per file),
a round-setup selection is always an index outside the used set. -/
lemma stepSelection_fresh (catalog : List String) (s : MachineState)
    (pick j : Nat) (hnd : catalog.Nodup)
    (hsel : stepSelection catalog s pick = some j) :
    j ∉ s.gs.usedImages := by
  obtain ⟨gs, c⟩ := s
  cases c with
  | discussionTimer => exact absurd hsel (by simp [stepSelection])
  | votingTimer => exact absurd hsel (by simp [stepSelection])
  | toScoreboard => exact absurd hsel (by simp [stepSelection])
  | toAdvance => exact absurd hsel (by simp [stepSelection])
  | halted => exact absurd hsel (by simp [stepSelection])
  | toDiscussion =>
    simp only [stepSelection] at hsel
    split at hsel
    · exact absurd hsel (by simp)
    · next hcond =>
      have hlen : (availableImages catalog gs.usedImages).length ≠ 0 := by
        intro hz; exact hcond (Or.inl hz)
      have hr : pick % (availableImages catalog gs.usedImages).length
          < (availableImages catalog gs.usedImages).length :=
        Nat.mod_lt _ (Nat.pos_of_ne_zero hlen)
      have hgetD : (availableImages catalog gs.usedImages).getD
          (pick % (availableImages catalog gs.usedImages).length) ""
          = (availableImages catalog gs.usedImages)[pick % (availableImages catalog gs.usedImages).length] := by
        simp [List.getD_eq_getElem?_getD, List.getElem?_eq_getElem hr]
      have hmem : (availableImages catalog gs.usedImages).getD
          (pick % (availableImages catalog gs.usedImages).length) ""
          ∈ availableImages catalog gs.usedImages := by
        rw [hgetD]; exact List.getElem_mem hr
      obtain ⟨i, _, hget, hnotused⟩ :=
        mem_availableImages catalog gs.usedImages _ hmem
      have hidx := indexOf_of_getElem? catalog i _ hnd hget
      have hj : j = i := by
        rw [← Option.some.inj hsel, hidx]
      simpa [hj] using hnotused

lemma stepM_usedImages_mono (catalog : List String) (lobby : Lobby)
    (s : MachineState) (pick x : Nat) (h : x ∈ s.gs.usedImages) :
    x ∈ (stepM catalog lobby s pick).gs.usedImages := by
  obtain ⟨gs, c⟩ := s
  cases c with
  | toDiscussion =>
      simp only [stepM, startDiscussionPhase]
      split
    
      · simpa [endGameState] using h
      · simpa using Or.inl h
  | discussionTimer => simpa using h
  | votingTimer => simpa [calculateResultsState] using h
  | toScoreboard => simpa using h
  | toAdvance =>
      simp only [stepM]
      split
      · simpa [endGameState] using h
      · simpa using h
  | halted => simpa using h

/-- C6: within a single session with a fixed duplicate-free image catalog,
a catalog index already recorded in the used-index set is never selected
again by any later round setup: round setup draws only from images whose
index is outside the used set (and then appends the chosen index). -/
theorem usedImages_never_reselected (catalog : List String) (lobby : Lobby)
    (s : MachineState) (idx : Nat) (picks : List Nat)
    (hnd : catalog.Nodup) (hmem : idx ∈ s.gs.usedImages) :
    idx ∉ runSelections catalog lobby s picks := by
  induction picks generalizing s with
  | nil => simp [runSelections]
  | cons p ps ih =>
      simp only [runSelections, List.mem_append]
      rintro (h1 | h2)
      · rcases hsel : stepSelection catalog s p with _ | j
        · rw [hsel] at h1; simp at h1
        · rw [hsel] at h1
          simp only [Option.toList_some, List.mem_singleton] at h1
          exact stepSelection_fresh catalog s p j hnd hsel (h1 ▸ hmem)
      · exact ih (stepM catalog lobby s p)
          (stepM_usedImages_mono catalog lobby s p idx hmem) h2

/-- Witness for `usedImages_never_reselected`: index 0 is used, so a run
never selects it again. -/
theorem usedImages_never_reselected_witness :
    (["/images/a.png", "/images/b.png"] : List String).Nodup
      ∧ (0 : Nat) ∈ ({ gsEmptyVote with usedImages := [0] } : GameState).usedImages
      ∧ (0 : Nat) ∉ runSelections ["/images/a.png", "/images/b.png"] lobbyAB
          ⟨{ gsEmptyVote with usedImages := [0] }, Cont.toDiscussion⟩ [1, 0, 0] :=
  ⟨by decide, by decide,
    usedImages_never_reselected ["/images/a.png", "/images/b.png"] lobbyAB
      ⟨{ gsEmptyVote with usedImages := [0] }, Cont.toDiscussion⟩ 0 [1, 0, 0]
      (by decide) (by decide)⟩

/-- The score reset of the `restart-game` handler (lines 290-292):
`lobby.participants.forEach(p => { gameState.scores[p.username] = 0 })`.
The scores object itself is NOT replaced, so entries for usernames no
longer in the participant list are left untouched. -/
def restartScores (ps : List Participant) (scores : List (String × Int)) :
    List (String × Int) :=
  ps.foldl (fun sc p => setEntry sc p.username 0) scores

/-- The game-state reset of the `restart-game` handler (lines 282-292):
phase, round number, image, votes, used images, timer and tally are reset;
`totalRounds` is untouched; scores are zeroed per current participant
in place. -/
def restartGameState (lobby : Lobby) (gs : GameState) : GameState :=
  { gs with phase := "discussion", roundNumber := 1, currentImage := none,
            votes := [], usedImages := [], timer := 60,
            voteResults := ⟨0, 0, 0⟩,
            scores := restartScores lobby.participants gs.scores }

/-- The payload of the `scoreboard-update` broadcast (line 488): the whole
`gameState.scores` object. -/
def scoreboardUpdatePayload (gs : GameState) : List (String × Int) :=
  gs.scores

/-- The payload of the `game-ended` broadcast (lines 515-517): the whole
`gameState.scores` object as `finalScores`. -/
def gameEndedPayload (gs : GameState) : List (String × Int) :=
  gs.scores

lemma getEntry_restartScores (ps : List Participant) (u : String) :
    ∀ scores : List (String × Int),
      getEntry (restartScores ps scores) u
        = if u ∈ ps.map Participant.username then some 0 else getEntry scores u := by
  induction ps with
  | nil => intro scores; simp [restartScores]
  | cons p t ih =>
      intro scores
      simp only [restartScores, List.foldl_cons] at ih ⊢
      rw [ih (setEntry scores p.username 0)]
      by_cases ht : u ∈ t.map Participant.username
      · simp [ht]
      · by_cases hp : p.username = u
        · simp [ht, hp, getEntry_setEntry_self]
        · rw [getEntry_setEntry_ne _ _ _ _ (fun hh => hp hh.symm)]
          simp only [List.map_cons, List.mem_cons]
          rw [if_neg ht, if_neg (by rintro (h | h); exact hp h.symm; exact ht h)]

/-- C10: a host-issued restart resets scores to 0 exactly for the usernames
currently in the participant list; a score entry for a username that is no
longer a participant (e.g. reaped after prolonged disconnection) is neither
reset nor deleted, and it still appears, with its old value, in the
`scoreboard-update` and `game-ended` broadcast payloads of the restarted
session. -/
theorem restart_preserves_stale_score_entries (lobby : Lobby)
    (gs : GameState) (u : String) (v : Int)
    (hu : u ∉ lobby.participants.map Participant.username)
    (hv : getEntry gs.scores u = some v) :
    getEntry (restartGameState lobby gs).scores u = some v
      ∧ (∀ p ∈ lobby.participants,
          getEntry (restartGameState lobby gs).scores p.username = some 0)
      ∧ getEntry (scoreboardUpdatePayload (restartGameState lobby gs)) u = some v
      ∧ getEntry (gameEndedPayload (restartGameState lobby gs)) u = some v := by
  have hmain : getEntry (restartGameState lobby gs).scores u = some v := by
    simp only [restartGameState]
    rw [getEntry_restartScores, if_neg hu, hv]
  refine ⟨hmain, ?_, hmain, hmain⟩
  intro p hp
  simp only [restartGameState]
  rw [getEntry_restartScores,
    if_pos (List.mem_map_of_mem Participant.username hp)]

/-- Witness for `restart_preserves_stale_score_entries`: ghost left the
lobby but keeps a stale score of 3 across a restart. -/
theorem restart_preserves_stale_score_entries_witness :
    getEntry (restartGameState lobbyAB
        { gsEmptyVote with
            scores := [("alice", 5), ("bob", 2), ("ghost", 3)] }).scores "ghost"
      = some 3
      ∧ (∀ p ∈ lobbyAB.participants,
          getEntry (restartGameState lobbyAB
            { gsEmptyVote with
                scores := [("alice", 5), ("bob", 2), ("ghost", 3)] }).scores
            p.username = some 0)
      ∧ getEntry (scoreboardUpdatePayload (restartGameState lobbyAB
          { gsEmptyVote with
              scores := [("alice", 5), ("bob", 2), ("ghost", 3)] })) "ghost"
        = some 3
      ∧ getEntry (gameEndedPayload (restartGameState lobbyAB
          { gsEmptyVote with
              scores := [("alice", 5), ("bob", 2), ("ghost", 3)] })) "ghost"
        = some 3 :=
  restart_preserves_stale_score_entries lobbyAB
    { gsEmptyVote with scores := [("alice", 5), ("bob", 2), ("ghost", 3)] }
    "ghost" 3 (by decide) (by decide)

/-- The `setTimeout` callbacks that can be in flight for a session.  The
code never stores these handles anywhere, so nothing can cancel them. -/
inductive PendingTask
  | runStartDiscussion
  | runShowScoreboard
  | runAdvance
  | runNextDiscussion
deriving DecidableEq, Repr

/-- A session together with its in-flight `setTimeout` callbacks and its
`timerInterval` handle (the only timer handle the code ever stores). -/
structure TimerWorld where
  gs : GameState
  pending : List PendingTask
  intervalActive : Bool
deriving DecidableEq, Repr

/-- The `restart-game` handler's timer behavior (lines 271-304): the game
state is reset in place, `clearInterval(gameState.timerInterval)` cancels
the interval if one is running, a fresh 2-second
`setTimeout(() => startDiscussionPhase(code))` is scheduled — and every
previously scheduled `setTimeout` is left pending, because its handle was
never stored. -/
def restartGameWorld (lobby : Lobby) (w : TimerWorld) : TimerWorld :=
  { gs := restartGameState lobby w.gs,
    intervalActive := false,
    pending := w.pending ++ [PendingTask.runStartDiscussion] }

/-- Firing the pending `showScoreboard` callback (lines 480-503, first
half): the session still exists under the same lobby code, so the
`if (!gameState) return` guard does not stop it; it flips the phase to
`"scoreboard"`, broadcasts, and schedules the 5-second round-advance
timeout. -/
def fireShowScoreboard (w : TimerWorld) : TimerWorld :=
  { gs := { w.gs with phase := "scoreboard" },
    pending := w.pending.erase PendingTask.runShowScoreboard
                ++ [PendingTask.runAdvance],
    intervalActive := w.intervalActive }

/-- A session sitting in the 5-second results window: `calculateResults`
has just run (phase `"results"`, interval cleared) and its
`setTimeout(() => showScoreboard(code), 5000)` is pending. -/
def resultsWorld : TimerWorld :=
  { gs := { phase := "results", roundNumber := 1, totalRounds := 30,
            currentImage := some "/images/a.png",
            votes := [("alice", "overrated"), ("bob", "overrated")],
            scores := [("alice", 1), ("bob", 1)],
            usedImages := [0], timer := 0,
            voteResults := ⟨2, 0, 0⟩ },
    pending := [PendingTask.runShowScoreboard],
    intervalActive := false }

/-- C3 is refuted by the code: the restart handler cancels only
`timerInterval`; the `setTimeout` chain that drives
results → scoreboard → round advance is never cancelled (its handles are
never stored), so a restart issued during the results window leaves the
old `showScoreboard` callback pending, and five seconds later it fires a
phase transition (`discussion` → `scoreboard`, with a round-advance
timeout scheduled behind it) against the freshly reset session — exactly
the stale-timer hazard the claim says is prevented. -/
theorem restart_leaves_stale_scoreboard_timeout :
    (restartGameWorld lobbyAB resultsWorld).gs.phase = "discussion"
      ∧ (restartGameWorld lobbyAB resultsWorld).gs.roundNumber = 1
      ∧ PendingTask.runShowScoreboard ∈ (restartGameWorld lobbyAB resultsWorld).pending
      ∧ (fireShowScoreboard (restartGameWorld lobbyAB resultsWorld)).gs.phase
          = "scoreboard"
      ∧ PendingTask.runAdvance
          ∈ (fireShowScoreboard (restartGameWorld lobbyAB resultsWorld)).pending := by
  refine ⟨by decide, by decide, by decide, by decide, by decide⟩

/-- A disconnection record: `disconnectedPlayers.set(username, { code, timestamp })`. -/
structure DPRec where
  code : String
  timestamp : Nat
deriving DecidableEq, Repr

/-- The guard `gameState && gameState.phase !== 'waiting'` used by both the
`leave-lobby` handler (line 187) and the `disconnect` handler (line 317).
Note it tests only the phase string: the between-rounds `waiting` phase of
an in-progress game fails this guard exactly like the no-session case. -/
def sessionActive (gs? : Option GameState) : Bool :=
  match gs? with
  | some gs => !(gs.phase == "waiting")
  | none => false

/-- Result of a disconnect: the lobby afterwards (`none` when deleted), the
session afterwards, the disconnected-players map, and whether
`lobby-closed` was broadcast. -/
structure DisconnectResult where
  lobbyAfter : Option Lobby
  gameAfter : Option GameState
  dpAfter : List (String × DPRec)
  lobbyClosed : Bool
deriving DecidableEq, Repr

/-- The `disconnect` handler (lines 306-342); the `leave-lobby` handler
(lines 181-208) performs the identical lobby/record update.  If the
participant exists and `sessionActive` holds, they are marked disconnected
(usernames are unique within a lobby, so updating by username equals the
code's update of the found participant object) and a timestamped record is
stored; otherwise they are removed outright, closing the lobby when they
were the host or the list became empty. -/
def handleDisconnect (code : String) (lobby : Lobby)
    (gs? : Option GameState) (username : String) (now : Nat)
    (dp : List (String × DPRec)) : DisconnectResult :=
  match lobby.participants.find? (fun p => p.username == username) with
  | none => ⟨some lobby, gs?, dp, false⟩
  | some _ =>
      if sessionActive gs? then
        ⟨some { lobby with participants :=
            lobby.participants.map (fun p =>
              if p.username = username then { p with connected := false } else p) },
          gs?, setEntry dp username ⟨code, now⟩, false⟩
      else
        if (lobby.participants.filter (fun p => !(p.username == username))).length = 0
            ∨ username = lobby.host then
          ⟨none, none, dp, true⟩
        else
          ⟨some { lobby with participants :=
              lobby.participants.filter (fun p => !(p.username == username)) },
            gs?, dp, false⟩

/-- The eviction test of the periodic sweep (line 351):
`now - data.timestamp > timeout` with `timeout = 5 * 60 * 1000`. -/
def sweepExpired (now : Nat) (r : DPRec) : Bool :=
  300000 < now - r.timestamp

/-- Removing a reaped username from its lobby (lines 352-356):
`lobby.participants = lobby.participants.filter(p => p.username !== username)`
applied to the lobby stored under the record's code. -/
def removeFromLobbies (ls : List (String × Lobby)) (code u : String) :
    List (String × Lobby) :=
  ls.map (fun e =>
    if e.1 = code then
      (e.1, { e.2 with participants :=
          e.2.participants.filter (fun p => !(p.username == u)) })
    else e)

/-- The periodic cleanup sweep (lines 346-360): every disconnection record
older than the 5-minute grace period is evicted — its username is filtered
out of the recorded lobby's participants and the record is deleted; younger
records (and their participants) are left alone. -/
def sweepDP (now : Nat) (ls : List (String × Lobby))
    (dp : List (String × DPRec)) :
    List (String × Lobby) × List (String × DPRec) :=
  (dp.foldl
      (fun acc e =>
        if sweepExpired now e.2 then removeFromLobbies acc e.2.code e.1 else acc)
      ls,
   dp.filter (fun e => !(sweepExpired now e.2)))

/-- A session between rounds: `showScoreboard` has set the phase to
`waiting` for the 3-second pause before round 2. -/
def gsWaitingRound2 : GameState :=
  { phase := "waiting", roundNumber := 2, totalRounds := 30,
    currentImage := some "/images/a.png", votes := [],
    scores := [("alice", 1), ("bob", 0)], usedImages := [0], timer := 0,
    voteResults := ⟨2, 0, 0⟩ }

/-- C8 counterexample: bob disconnects during the between-rounds `waiting`
phase of an in-progress game (round 2 of 30).  The handler's guard
`gameState.phase !== 'waiting'` fails, so instead of being marked
disconnected with a grace-period record, bob is removed from the
participant list outright and no disconnection record is created — the
claimed behavior for "any phase of an in-progress game other than the
pre-session waiting state" does not hold in the mid-game waiting window. -/
theorem disconnect_midgame_waiting_removes_outright :
    gsWaitingRound2.roundNumber = 2
      ∧ (handleDisconnect "ABC123" lobbyAB (some gsWaitingRound2) "bob" 1000 []).lobbyAfter
          = some { lobbyAB with participants := [⟨"alice", true, true⟩] }
      ∧ (handleDisconnect "ABC123" lobbyAB (some gsWaitingRound2) "bob" 1000 []).dpAfter
          = [] := by
  refine ⟨by decide, by decide, by decide⟩

lemma getEntry_removeFromLobbies_ne (ls : List (String × Lobby))
    (code u c : String) (hc : c ≠ code) :
    getEntry (removeFromLobbies ls code u) c = getEntry ls c := by
  induction ls with
  | nil => rfl
  | cons e rest ih =>
      obtain ⟨k, lb⟩ := e
      by_cases hk : k = code
      · rw [show removeFromLobbies ((k, lb) :: rest) code u
              = (k, { lb with participants :=
                  lb.participants.filter (fun p => !(p.username == u)) })
                :: removeFromLobbies rest code u
            from by simp [removeFromLobbies, hk]]
        rw [getEntry_cons, getEntry_cons, if_neg (hk ▸ fun hh => hc hh.symm),
          if_neg (hk ▸ fun hh => hc hh.symm), ih]
      · rw [show removeFromLobbies ((k, lb) :: rest) code u
              = (k, lb) :: removeFromLobbies rest code u
            from by simp [removeFromLobbies, hk]]
        rw [getEntry_cons, getEntry_cons, ih]

lemma getEntry_removeFromLobbies_self (ls : List (String × Lobby))
    (code u : String) :
    getEntry (removeFromLobbies ls code u) code
      = (getEntry ls code).map (fun lb =>
          { lb with participants :=
              lb.participants.filter (fun p => !(p.username == u)) }) := by
  induction ls with
  | nil => rfl
  | cons e rest ih =>
      obtain ⟨k, lb⟩ := e
      by_cases hk : k = code
      · rw [show removeFromLobbies ((k, lb) :: rest) code u
              = (k, { lb with participants :=
                  lb.participants.filter (fun p => !(p.username == u)) })
                :: removeFromLobbies rest code u
            from by simp [removeFromLobbies, hk]]
        rw [getEntry_cons, getEntry_cons, if_pos hk, if_pos hk]
        rfl
      · rw [show removeFromLobbies ((k, lb) :: rest) code u
              = (k, lb) :: removeFromLobbies rest code u
            from by simp [removeFromLobbies, hk]]
        rw [getEntry_cons, getEntry_cons, if_neg hk, if_neg hk, ih]

lemma username_not_mem_filter (parts : List Participant) (u : String)
    (q : Participant → Bool) (h : u ∉ parts.map Participant.username) :
    u ∉ (parts.filter q).map Participant.username := by
  intro hmem
  rw [List.mem_map] at hmem
  obtain ⟨p, hp, he⟩ := hmem
  exact h (he ▸ List.mem_map_of_mem Participant.username (List.mem_of_mem_filter hp))

/-- Absence of `u` from the lobby stored under `c` is preserved by any
sweep removal step. -/
lemma removeFromLobbies_preserves_absent (ls : List (String × Lobby))
    (code' u' c u : String)
    (h : ∀ lb, getEntry ls c = some lb → u ∉ lb.participants.map Participant.username) :
    ∀ lb, getEntry (removeFromLobbies ls code' u') c = some lb →
      u ∉ lb.participants.map Participant.username := by
  intro lb hlb
  by_cases hc : c = code'
  · subst hc
    rw [getEntry_removeFromLobbies_self] at hlb
    rcases hle : getEntry ls c with _ | lb0
    · rw [hle] at hlb; cases hlb
    · rw [hle] at hlb
      simp only [Option.map_some'] at hlb
      have := h lb0 hle
      obtain rfl := Option.some.inj hlb
      exact username_not_mem_filter _ _ _ this
  · rw [getEntry_removeFromLobbies_ne _ _ _ _ hc] at hlb
    exact h lb hlb

lemma removeFromLobbies_makes_absent (ls : List (String × Lobby))
    (code u : String) :
    ∀ lb, getEntry (removeFromLobbies ls code u) code = some lb →
      u ∉ lb.participants.map Participant.username := by
  intro lb hlb
  rw [getEntry_removeFromLobbies_self] at hlb
  rcases hle : getEntry ls code with _ | lb0
  · rw [hle] at hlb; cases hlb
  · rw [hle] at hlb
    simp only [Option.map_some'] at hlb
    obtain rfl := Option.some.inj hlb
    intro hmem
    rw [List.mem_map] at hmem
    obtain ⟨p, hp, he⟩ := hmem
    rw [List.mem_filter] at hp
    have := hp.2
    simp only [Bool.not_eq_eq_eq_not, Bool.not_true, beq_eq_false_iff_ne] at this
    exact this (by simpa using he)

lemma sweep_foldl_preserves_absent (now : Nat) (c u : String) :
    ∀ (dp : List (String × DPRec)) (acc : List (String × Lobby)),
      (∀ lb, getEntry acc c = some lb → u ∉ lb.participants.map Participant.username) →
      ∀ lb,
        getEntry
          (dp.foldl
            (fun acc e =>
              if sweepExpired now e.2 then removeFromLobbies acc e.2.code e.1 else acc)
            acc) c = some lb →
        u ∉ lb.participants.map Participant.username := by
  intro dp
  induction dp with
  | nil => intro acc h; exact h
  | cons e rest ih =>
      intro acc h
      rw [List.foldl_cons]
      by_cases hex : sweepExpired now e.2 = true
      · rw [if_pos hex]
        exact ih _ (removeFromLobbies_preserves_absent _ _ _ _ _ h)
      · rw [if_neg hex]
        exact ih _ h

lemma sweep_foldl_removes (now : Nat) (u : String) (r : DPRec) :
    ∀ (dp : List (String × DPRec)) (acc : List (String × Lobby)),
      (u, r) ∈ dp → sweepExpired now r = true →
      ∀ lb,
        getEntry
          (dp.foldl
            (fun acc e =>
              if sweepExpired now e.2 then removeFromLobbies acc e.2.code e.1 else acc)
            acc) r.code = some lb →
        u ∉ lb.participants.map Participant.username := by
  intro dp
  induction dp with
  | nil => intro acc h; cases h
  | cons e rest ih =>
      intro acc hmem hex
      rw [List.foldl_cons]
      rcases List.mem_cons.1 hmem with he | ht
      · subst he
        rw [if_pos hex]
        exact sweep_foldl_preserves_absent now r.code u rest _
          (removeFromLobbies_makes_absent acc r.code u)
      · exact ih _ ht hex

lemma sweep_foldl_id (now : Nat) :
    ∀ (dp : List (String × DPRec)) (acc : List (String × Lobby)),
      (∀ e ∈ dp, sweepExpired now e.2 = false) →
      dp.foldl
        (fun acc e =>
          if sweepExpired now e.2 then removeFromLobbies acc e.2.code e.1 else acc)
        acc = acc := by
  intro dp
  induction dp with
  | nil => intro acc _; rfl
  | cons e rest ih =>
      intro acc h
      rw [List.foldl_cons, if_neg (by simp [h e (by simp)]), ih]
      intro e' he'
      exact h e' (by simp [he'])

/-- C8 (amended): for every disconnect (explicit leave or transport-level)
that occurs while the session's phase is anything other than `"waiting"` —
the code tests only the phase string, so the brief between-rounds waiting
window is treated exactly like the pre-session state, removing the
participant outright (see the counterexample) — the participant is marked
disconnected but kept in the participant list, a disconnection record with
the current timestamp is created, and the lobby stays open.  The periodic
sweep evicts a record exactly when more than 5 minutes (300000 ms) have
elapsed: an expired record's username is removed from its lobby's list and
the record deleted, while a sweep over only-unexpired records changes
nothing. -/
theorem disconnect_grace_period (code : String) (lobby : Lobby)
    (gs : GameState) (username : String) (now : Nat)
    (dp : List (String × DPRec))
    (hphase : gs.phase ≠ "waiting")
    (hmem : username ∈ lobby.participants.map Participant.username) :
    (∃ lobby',
        (handleDisconnect code lobby (some gs) username now dp).lobbyAfter
            = some lobby'
          ∧ lobby'.participants
              = lobby.participants.map (fun p =>
                  if p.username = username then { p with connected := false } else p)
          ∧ username ∈ lobby'.participants.map Participant.username
          ∧ ∀ p ∈ lobby'.participants, p.username = username → p.connected = false)
      ∧ getEntry (handleDisconnect code lobby (some gs) username now dp).dpAfter
          username = some ⟨code, now⟩
      ∧ (handleDisconnect code lobby (some gs) username now dp).lobbyClosed = false
      ∧ (∀ (now' : Nat) (ls : List (String × Lobby)) (dp' : List (String × DPRec))
            (u : String) (r : DPRec),
          (u, r) ∈ dp' → sweepExpired now' r = true →
            (u, r) ∉ (sweepDP now' ls dp').2
              ∧ ∀ lb, getEntry (sweepDP now' ls dp').1 r.code = some lb →
                  u ∉ lb.participants.map Participant.username)
      ∧ (∀ (now' : Nat) (ls : List (String × Lobby)) (dp' : List (String × DPRec)),
          (∀ e ∈ dp', sweepExpired now' e.2 = false) →
            sweepDP now' ls dp' = (ls, dp')) := by
  have hfind : (lobby.participants.find? (fun p => p.username == username)).isSome := by
    rw [List.find?_isSome]
    rw [List.mem_map] at hmem
    obtain ⟨p, hp, he⟩ := hmem
    exact ⟨p, hp, by simp [he]⟩
  have hact : sessionActive (some gs) = true := by
    simp [sessionActive, hphase]
  rcases hf : lobby.participants.find? (fun p => p.username == username) with _ | p0
  · rw [hf] at hfind; cases hfind
  · have hred : handleDisconnect code lobby (some gs) username now dp
        = ⟨some { lobby with participants :=
              lobby.participants.map (fun p =>
                if p.username = username then { p with connected := false } else p) },
            some gs, setEntry dp username ⟨code, now⟩, false⟩ := by
      rw [handleDisconnect, hf, if_pos hact]
    refine ⟨⟨_, by rw [hred], rfl, ?_, ?_⟩, by rw [hred]; exact getEntry_setEntry_self _ _ _,
      by rw [hred], ?_, ?_⟩
    · have husers :
          (lobby.participants.map (fun p =>
            if p.username = username then { p with connected := false } else p)).map
              Participant.username
            = lobby.participants.map Participant.username := by
        rw [List.map_map]
        apply List.map_congr_left
        intro p _
        by_cases h : p.username = username <;> simp [h]
      simpa [husers] using hmem
    · intro p hp hname
      rw [List.mem_map] at hp
      obtain ⟨q, _, he⟩ := hp
      by_cases h : q.username = username
      · rw [if_pos h] at he
        rw [← he]
      · rw [if_neg h] at he
        exact absurd (he ▸ hname) h
    · intro now' ls dp' u r hmem' hex
      constructor
      · intro hmemf
        rw [show (sweepDP now' ls dp').2
              = dp'.filter (fun e => !(sweepExpired now' e.2)) from rfl,
          List.mem_filter] at hmemf
        rw [hex] at hmemf
        exact absurd hmemf.2 (by simp)
      · exact sweep_foldl_removes now' u r dp' ls hmem' hex
    · intro now' ls dp' hno
      unfold sweepDP
      rw [sweep_foldl_id now' dp' ls hno, List.filter_eq_self.2]
      intro e he
      simp [hno e he]

/-- Witness for `disconnect_grace_period`: bob drops during the voting
phase and gets a timestamped disconnection record. -/
theorem disconnect_grace_period_witness :
    getEntry (handleDisconnect "ABC123" lobbyAB (some gsEmptyVote) "bob" 777 []).dpAfter
      "bob" = some ⟨"ABC123", 777⟩ :=
  (disconnect_grace_period "ABC123" lobbyAB gsEmptyVote "bob" 777 []
    (by decide) (by decide)).2.1

/-- A base-36 digit as the character `Math.random().toString(36)` uses:
`0`-`9` then `a`-`z`. -/
def base36Char (d : Nat) : Char :=
  if d < 10 then Char.ofNat (48 + d) else Char.ofNat (87 + d)

/-- `generateLobbyCode` (lines 72-74):
`Math.random().toString(36).substr(2, 6).toUpperCase()`.  The random draw
enters only through its fractional base-36 digits, which are passed in
explicitly: `substr(2, 6)` keeps the first six of them (fewer if the
representation is shorter), and the result is uppercased.  Nothing else
enters the code: two draws with the same digit stream yield the same
code, and no uniqueness check against existing lobbies is made anywhere. -/
def generateLobbyCode (digits : List Nat) : String :=
  ((digits.take 6).map (fun d => (base36Char (d % 36)).toUpper)).asString

/-- Result of the `/api/lobby/create` route: HTTP-style status, the error
message (if any), the `{code, lobby}` response (if any), and the lobby
directory afterwards. -/
structure CreateLobbyResult where
  status : Nat
  errorMsg : Option String
  created : Option (String × Lobby)
  lobbiesAfter : List (String × Lobby)
deriving DecidableEq, Repr

/-- The `/api/lobby/create` route (lines 101-120): reject with 400 when the
username is absent (or otherwise falsy) or shorter than 2 characters;
otherwise build the lobby and store it with `lobbies.set(code, lobby)` —
an unconditional insert that replaces any existing lobby stored under the
same code. -/
def createLobby (username? : Option String) (digits : List Nat) (now : Nat)
    (lobbies : List (String × Lobby)) : CreateLobbyResult :=
  match username? with
  | none =>
      ⟨400, some "Username must be at least 2 characters", none, lobbies⟩
  | some username =>
      if username.length < 2 then
        ⟨400, some "Username must be at least 2 characters", none, lobbies⟩
      else
        ⟨200, none,
          some (generateLobbyCode digits,
            ⟨generateLobbyCode digits, username,
              [⟨username, true, true⟩], now, false⟩),
          setEntry lobbies (generateLobbyCode digits)
            ⟨generateLobbyCode digits, username,
              [⟨username, true, true⟩], now, false⟩⟩

/-- The fractional base-36 digits of a colliding pair of draws. -/
def collisionDigits : List Nat := [10, 11, 12, 0, 1, 2]

/-- C9 counterexample: the generated code is a pure function of the random
draw with no uniqueness check against the directory, so a second create
whose draw repeats the first one produces the same code `"ABC012"` and its
`lobbies.set` replaces the first lobby's entry: after bobby's create the
directory holds a single lobby under `"ABC012"`, and alice's lobby is
gone.  This refutes the claim that every successful create generates a
code distinct from every lobby already present. -/
theorem createLobby_code_collision :
    generateLobbyCode collisionDigits = "ABC012"
      ∧ (createLobby (some "alice") collisionDigits 0 []).lobbiesAfter
          = [("ABC012", ⟨"ABC012", "alice", [⟨"alice", true, true⟩], 0, false⟩)]
      ∧ (createLobby (some "bobby") collisionDigits 5
            (createLobby (some "alice") collisionDigits 0 []).lobbiesAfter).lobbiesAfter
          = [("ABC012", ⟨"ABC012", "bobby", [⟨"bobby", true, true⟩], 5, false⟩)]
      ∧ getEntry
          (createLobby (some "bobby") collisionDigits 5
            (createLobby (some "alice") collisionDigits 0 []).lobbiesAfter).lobbiesAfter
          "ABC012"
          ≠ some ⟨"ABC012", "alice", [⟨"alice", true, true⟩], 0, false⟩ := by
  refine ⟨by decide, by decide, by decide, by decide⟩

/-- C9 (amended): create fails with 400 exactly when the username is absent
or shorter than 2 characters (leaving the directory unchanged); on success
the code is `generateLobbyCode` of the random draw alone and the new lobby
is stored with replace-on-collision `Map.set` semantics — no uniqueness
against existing lobby codes is guaranteed (see the counterexample). -/
theorem createLobby_validation_and_insertion (username? : Option String)
    (digits : List Nat) (now : Nat) (lobbies : List (String × Lobby)) :
    ((createLobby username? digits now lobbies).status = 400
        ↔ ∀ u, username? = some u → u.length < 2)
      ∧ ((createLobby username? digits now lobbies).status = 400 →
          (createLobby username? digits now lobbies).lobbiesAfter = lobbies
            ∧ (createLobby username? digits now lobbies).created = none)
      ∧ (∀ u, username? = some u → 2 ≤ u.length →
          (createLobby username? digits now lobbies).created
              = some (generateLobbyCode digits,
                  ⟨generateLobbyCode digits, u, [⟨u, true, true⟩], now, false⟩)
            ∧ (createLobby username? digits now lobbies).lobbiesAfter
              = setEntry lobbies (generateLobbyCode digits)
                  ⟨generateLobbyCode digits, u, [⟨u, true, true⟩], now, false⟩) := by
  rcases username? with _ | u
  · refine ⟨by simp [createLobby], fun _ => by simp [createLobby], ?_⟩
    intro u h
    cases h
  · by_cases hlen : u.length < 2
    · refine ⟨?_, fun _ => by simp [createLobby, hlen], ?_⟩
      · simp only [createLobby, if_pos hlen]
        constructor
        · intro _ u' hu'
          exact Option.some.inj hu' ▸ hlen
        · intro _; trivial
      · intro u' hu' hlen'
        obtain rfl := Option.some.inj hu'
        omega
    · refine ⟨?_, ?_, ?_⟩
      · simp only [createLobby, if_neg hlen]
        constructor
        · intro h; cases h
        · intro h
          exact absurd (h u rfl) hlen
      · simp [createLobby, hlen]
      · intro u' hu' _
        obtain rfl := Option.some.inj hu'
        simp [createLobby, hlen]

/-- Witness for `createLobby_validation_and_insertion`: a valid create
stores the lobby under the generated code. -/
theorem createLobby_validation_and_insertion_witness :
    (createLobby (some "alice") collisionDigits 0 []).created
        = some (generateLobbyCode collisionDigits,
            ⟨generateLobbyCode collisionDigits, "alice",
              [⟨"alice", true, true⟩], 0, false⟩)
      ∧ (createLobby (some "alice") collisionDigits 0 []).lobbiesAfter
        = setEntry [] (generateLobbyCode collisionDigits)
            ⟨generateLobbyCode collisionDigits, "alice",
              [⟨"alice", true, true⟩], 0, false⟩ :=
  (createLobby_validation_and_insertion (some "alice") collisionDigits 0 []).2.2
    "alice" rfl (by decide)

/-- Witness for `calculateResults_scoring`: with both players voting the
majority category, alice's score entry goes from 0 to 1. -/
theorem calculateResults_scoring_witness :
    ∃ v : Int,
      getEntry [("alice", (0 : Int)), ("bob", 0)] "alice" = some v
        ∧ getEntry
            (applyScoring [⟨"alice", true, true⟩, ⟨"bob", false, true⟩]
              [("alice", "overrated"), ("bob", "overrated")]
              (some "overrated") [("alice", 0), ("bob", 0)]) "alice"
          = some (v + 1) :=
  (calculateResults_scoring [⟨"alice", true, true⟩, ⟨"bob", false, true⟩]
      [("alice", "overrated"), ("bob", "overrated")] "overrated"
      [("alice", 0), ("bob", 0)] "alice" (by decide) (by decide)).2.1
    ⟨⟨"alice", true, true⟩, by decide, rfl, by decide⟩

end OverUnderRated
